import Mathlib

/-!
Verification development for the `estate-static-ip-egress-proxy` service
(an axum reverse proxy with a NowPayments IPN webhook verifier).

The Rust sources are embedded shallowly:
* `sort_json.rs` — the recursive JSON key-sorting canonicalizer;
* `nowpayments_ipn_webhook.rs` — the webhook verification pipeline;
* `app_state.rs` — the `RequestMetrics` aggregator;
* `main.rs` — the forwarder's body-size cap and response rewriting.

JSON values (`serde_json::Value`) are modelled by the inductive type `Json`.
A number is carried as its literal payload (an opaque `String`): the
canonicalizer clones scalars without inspecting them, so no arithmetic on
numbers is ever needed.  An object (`serde_json::Map`) is modelled as an
association list in iteration order; the map's structural invariant — no
duplicate keys — is the predicate `Json.wf`.

External crates are modelled as follows.  The JSON parser
(`serde_json::from_slice`) and the HMAC-SHA512 primitive (`hmac`/`sha2`
crates) are taken as function parameters of the webhook handler: the claims
about the handler quantify over them.  Hex encoding (`hex::encode`) and
UTF-8 encoding (`str::as_bytes`) are implemented concretely.  Rust machine
integers that only count upwards (`usize`/`u64` metrics counters) are
modelled as `Nat`; their 2^64 wrap-around is unreachable for the properties
considered.  The `f64` average field is modelled as an exact rational; no
claim depends on its rounding.  Bytes are modelled as `Nat` in `0..256`.
-/

/-- Model of `serde_json::Value`.  Object entries are listed in the map's
iteration order; a number is kept as its literal representation. -/
inductive Json where
  | null : Json
  | bool (b : Bool) : Json
  | num (lit : String) : Json
  | str (s : String) : Json
  | arr (elems : List Json) : Json
  | obj (entries : List (String × Json)) : Json

namespace Json

/-- Model of the indexing operation `map[k]` used in `sort_json.rs` line 16.
In the Rust code the key is always present (it was collected from the very
map being indexed), so the `Json.null` fallback for an absent key is never
reached on the actual call sites. -/
def lookupJ (k : String) : List (String × Json) → Json
  | [] => Json.null
  | (k', v) :: rest => if k = k' then v else lookupJ k rest

/-- Model of `keys.sort()` (`sort_json.rs` line 13).  Rust's `sort` is a
stable sort under the byte-wise (UTF-8 lexicographic) `Ord` of `String`;
UTF-8 byte order coincides with code-point order, which is Lean's `String`
order.  A stable sort's output is uniquely determined by the comparator, so
the external stable sort is modelled by the structurally recursive stable
`List.insertionSort`. -/
def sortKeys (ks : List String) : List String :=
  List.insertionSort (fun a b : String => a ≤ b) ks

/-- Shallow embedding of `sort_json` (`sort_json.rs` lines 7–27):
collect the object's keys, sort them, and rebuild the object by looking up
each key in sorted order, recursing into the values; recurse into array
elements in place; return scalars unchanged. -/
def sort_json : Json → Json
  | .obj kvs =>
      let keys := sortKeys (kvs.map Prod.fst)
      Json.obj (keys.map fun k => (k, sort_json (lookupJ k kvs)))
  | .arr elems =>
      Json.arr (elems.attach.map fun x => sort_json x.1)
  | other => other
termination_by j => sizeOf j
decreasing_by
  · have h1 : ∀ kvs' : List (String × Json), sizeOf (lookupJ k kvs') ≤ sizeOf kvs' := by
      intro kvs'
      induction kvs' with
      | nil => simp [lookupJ]
      | cons p rest ih =>
        obtain ⟨k', v⟩ := p
        simp only [lookupJ]
        split
        · simp
          omega
        · simp
          omega
    have h2 := h1 kvs
    simp only [Json.obj.sizeOf_spec]
    omega
  · have hx := x.2
    have h3 : sizeOf x.1 < sizeOf elems := List.sizeOf_lt_of_mem hx
    simp only [Json.arr.sizeOf_spec]
    omega

/-- No string occurs twice in the list: the key-uniqueness part of the
`serde_json::Map` structural invariant. -/
def nodupKeys : List String → Bool
  | [] => true
  | k :: ks => !(ks.contains k) && nodupKeys ks

mutual

/-- Structural invariant of `serde_json::Value` trees: every object,
at every nesting level, is a map and hence has pairwise distinct keys. -/
def wf : Json → Bool
  | .obj kvs => nodupKeys (kvs.map Prod.fst) && wfEntries kvs
  | .arr elems => wfElems elems
  | .null => true
  | .bool _ => true
  | .num _ => true
  | .str _ => true

/-- Conjunction of `wf` over each value of an object's entry list. -/
def wfEntries : List (String × Json) → Bool
  | [] => true
  | (_, v) :: rest => wf v && wfEntries rest

/-- Conjunction of `wf` over each element of an array. -/
def wfElems : List Json → Bool
  | [] => true
  | x :: rest => wf x && wfElems rest

end

/-- A scalar in the sense of `sort_json.rs` line 25: a JSON value that is
neither an object nor an array. -/
def isScalar : Json → Bool
  | .null => true
  | .bool _ => true
  | .num _ => true
  | .str _ => true
  | .arr _ => false
  | .obj _ => false

end Json

/-- The canonical-form predicate of the spec's `CanonicalValue`: every
object's keys are strictly ascending at every nesting level (array element
order carries no constraint beyond recursion). -/
inductive Canonical : Json → Prop where
  | null : Canonical Json.null
  | bool (b : Bool) : Canonical (Json.bool b)
  | num (lit : String) : Canonical (Json.num lit)
  | str (s : String) : Canonical (Json.str s)
  | arr (elems : List Json) (h : ∀ x ∈ elems, Canonical x) :
      Canonical (Json.arr elems)
  | obj (entries : List (String × Json))
      (hsorted : (entries.map Prod.fst).Sorted (fun a b : String => a < b))
      (h : ∀ p ∈ entries, Canonical p.2) :
      Canonical (Json.obj entries)

/-- Lowercase hexadecimal digit, as produced by `hex::encode` and by
`serde_json`'s `\u00XX` escapes. -/
def hexDigitChar (n : Nat) : Char :=
  if n < 10 then Char.ofNat (48 + n) else Char.ofNat (87 + n)

/-- Model of `hex::encode`: two lowercase hex digits per byte. -/
def hexEncode (bs : List Nat) : String :=
  String.join (bs.map fun b => String.mk [hexDigitChar (b / 16 % 16), hexDigitChar (b % 16)])

/-- Model of `serde_json`'s escaping of one character inside a JSON string:
quote and backslash get two-character escapes, the control characters
BS/TAB/LF/FF/CR get their short escapes, other control characters get a
lowercase `\u00XX` escape, and everything else is emitted verbatim. -/
def escapeChar (c : Char) : String :=
  if c.toNat = 34 then "\\\""
  else if c.toNat = 92 then "\\\\"
  else if c.toNat = 8 then "\\b"
  else if c.toNat = 9 then "\\t"
  else if c.toNat = 10 then "\\n"
  else if c.toNat = 12 then "\\f"
  else if c.toNat = 13 then "\\r"
  else if c.toNat < 32 then
    "\\u00" ++ String.mk [hexDigitChar (c.toNat / 16), hexDigitChar (c.toNat % 16)]
  else String.singleton c

/-- Model of `serde_json`'s serialization of a string literal. -/
def encodeJsonString (s : String) : String :=
  "\"" ++ String.join (s.data.map escapeChar) ++ "\""

/-- Comma-join of already serialized items, as the compact serializer
emits them. -/
def joinComma : List String → String
  | [] => ""
  | [s] => s
  | s :: rest => s ++ "," ++ joinComma rest

/-- Model of `serde_json::to_string`: compact serialization with the
minimal separators and no inserted whitespace.  On `serde_json::Value` this
serialization is total, so the `unwrap_or_default()` at
`nowpayments_ipn_webhook.rs` line 67 never takes its default branch. -/
def jsonToString : Json → String
  | .null => "null"
  | .bool true => "true"
  | .bool false => "false"
  | .num lit => lit
  | .str s => encodeJsonString s
  | .arr elems =>
      "[" ++ joinComma (elems.attach.map fun x => jsonToString x.1) ++ "]"
  | .obj kvs =>
      "\x7b" ++
        joinComma (kvs.attach.map fun p => encodeJsonString p.1.1 ++ ":" ++ jsonToString p.1.2) ++
        "\x7d"
termination_by j => sizeOf j
decreasing_by
  · have hx := x.2
    have h1 : sizeOf x.1 < sizeOf elems := List.sizeOf_lt_of_mem hx
    simp only [Json.arr.sizeOf_spec]
    omega
  · obtain ⟨⟨k, v⟩, hmem⟩ := p
    have h1 : sizeOf (k, v) < sizeOf kvs := List.sizeOf_lt_of_mem hmem
    simp only [Json.obj.sizeOf_spec, Prod.mk.sizeOf_spec] at h1 ⊢
    omega

/-- Model of `str::as_bytes`: the UTF-8 encoding of a string, one `Nat`
per byte. -/
def charUtf8 (c : Char) : List Nat :=
  let n := c.toNat
  if n < 128 then [n]
  else if n < 2048 then [192 + n / 64, 128 + n % 64]
  else if n < 65536 then [224 + n / 4096, 128 + n / 64 % 64, 128 + n % 64]
  else [240 + n / 262144, 128 + n / 4096 % 64, 128 + n / 64 % 64, 128 + n % 64]

/-- UTF-8 bytes of a whole string. -/
def utf8Bytes (s : String) : List Nat :=
  s.data.flatMap charUtf8

/-- Model of `http::HeaderValue::to_str`: succeeds iff every byte is
visible ASCII (32–126) or horizontal tab, decoding bytes one-to-one. -/
def headerValueToStr (bs : List Nat) : Option String :=
  if bs.all fun b => (decide (32 ≤ b) && decide (b < 127)) || decide (b = 9) then
    some (String.mk (bs.map Char.ofNat))
  else none

/-- The fixed source-IP allow-list of `nowpayments_ipn_webhook.rs`
lines 16–21.  An `IpAddr` is modelled by its canonical dotted-decimal
text, so the `client_ip == ip.parse().unwrap()` comparison becomes string
equality of canonical forms. -/
def NOWPAYMENTS_ALLOWED_IPS : List String :=
  ["51.89.194.21", "51.75.77.69", "138.201.172.58", "65.21.158.36"]

/-- Shallow embedding of `nowpayments_webhook`
(`nowpayments_ipn_webhook.rs` lines 24–87).  The external JSON parser and
the HMAC-SHA512 primitive enter as the function parameters `parse` and
`hmacSha512`; the handler's result is the `(status code, body)` pair it
returns.  The stages appear in source order: source-IP allow-list check,
signature-header extraction and decoding, JSON body parsing,
canonicalization, compact serialization, HMAC computation, lowercase hex
encoding, and the final string comparison. -/
def nowpayments_webhook (parse : List Nat → Option Json)
    (hmacSha512 : List Nat → List Nat → List Nat)
    (ipn_secret client_ip : String)
    (headers : String → Option (List Nat)) (body : List Nat) : Nat × String :=
  let allowed := NOWPAYMENTS_ALLOWED_IPS.any fun ip => client_ip == ip
  if !allowed then (403, "Forbidden")
  else
    match headers "x-nowpayments-sig" with
    | none => (400, "Signature missing")
    | some sigBytes =>
      match headerValueToStr sigBytes with
      | none => (400, "Invalid signature format")
      | some signature =>
        match parse body with
        | none => (500, "JSON parsing error")
        | some payload =>
          let sorted_payload := Json.sort_json payload
          let payload_str := jsonToString sorted_payload
          let computed_hex :=
            hexEncode (hmacSha512 (utf8Bytes ipn_secret) (utf8Bytes payload_str))
          if computed_hex == signature then (200, "OK")
          else (400, "Invalid signature")

/-- Model of the `RequestMetrics` struct (`app_state.rs` lines 28–45).
Hash maps become total functions (`0` resp. `none` for absent keys); the
`f64` running average is kept as an exact rational; `start_time` is an
abstract timestamp. -/
structure RequestMetrics where
  total_requests : Nat
  successful_requests : Nat
  failed_requests : Nat
  total_request_time_ms : Nat
  avg_request_time_ms : Rat
  requests_by_path : String → Nat
  requests_by_status : Nat → Nat
  response_sizes : String → Option Nat
  slowest_request_time_ms : Nat
  slowest_request_path : String
  connection_errors : Nat
  timeout_errors : Nat
  dns_errors : Nat
  env_requests : String → Nat
  start_time : Nat

namespace RequestMetrics

/-- Model of `RequestMetrics::default()` (`app_state.rs` lines 47–67);
`SystemTime::now()` is abstracted to timestamp `0`. -/
def default : RequestMetrics where
  total_requests := 0
  successful_requests := 0
  failed_requests := 0
  total_request_time_ms := 0
  avg_request_time_ms := 0
  requests_by_path := fun _ => 0
  requests_by_status := fun _ => 0
  response_sizes := fun _ => none
  slowest_request_time_ms := 0
  slowest_request_path := ""
  connection_errors := 0
  timeout_errors := 0
  dns_errors := 0
  env_requests := fun _ => 0
  start_time := 0

/-- Shallow embedding of `RequestMetrics::record_request`
(`app_state.rs` lines 71–102).  Each field update mirrors one statement of
the Rust method; updates that read other fields (the average, the slowest
tracking) read exactly the values the Rust code reads at that point. -/
def record_request (m : RequestMetrics) (path env : String) (status : Nat)
    (duration_ms : Nat) (response_size : Nat) : RequestMetrics where
  total_requests := m.total_requests + 1
  requests_by_path := fun p =>
    if p = path then m.requests_by_path p + 1 else m.requests_by_path p
  env_requests := fun e =>
    if e = env then m.env_requests e + 1 else m.env_requests e
  requests_by_status := fun s =>
    if s = status then m.requests_by_status s + 1 else m.requests_by_status s
  response_sizes := fun p =>
    if p = path then some response_size else m.response_sizes p
  successful_requests :=
    if 200 ≤ status ∧ status < 400 then m.successful_requests + 1
    else m.successful_requests
  failed_requests :=
    if 200 ≤ status ∧ status < 400 then m.failed_requests
    else m.failed_requests + 1
  total_request_time_ms := m.total_request_time_ms + duration_ms
  avg_request_time_ms :=
    ((m.total_request_time_ms + duration_ms : Nat) : Rat) /
      ((m.total_requests + 1 : Nat) : Rat)
  slowest_request_time_ms :=
    if duration_ms > m.slowest_request_time_ms then duration_ms
    else m.slowest_request_time_ms
  slowest_request_path :=
    if duration_ms > m.slowest_request_time_ms then path
    else m.slowest_request_path
  connection_errors := m.connection_errors
  timeout_errors := m.timeout_errors
  dns_errors := m.dns_errors
  start_time := m.start_time

/-- Shallow embedding of `RequestMetrics::record_error`
(`app_state.rs` lines 104–111): one recognized error kind bumps its
counter, anything else is a no-op. -/
def record_error (m : RequestMetrics) (error_type : String) : RequestMetrics :=
  if error_type = "connection" then
    { m with connection_errors := m.connection_errors + 1 }
  else if error_type = "timeout" then
    { m with timeout_errors := m.timeout_errors + 1 }
  else if error_type = "dns" then
    { m with dns_errors := m.dns_errors + 1 }
  else m

end RequestMetrics

/-- The constant `MAX_BODY_SIZE` from `main.rs` line 41: the 8 MiB inbound
body cap. -/
def MAX_BODY_SIZE : Nat := 8 * 1024 * 1024

/-- Model of `axum::body::to_bytes(body, limit)`: collects the whole body
when its length is within `limit` and fails otherwise (no truncation). -/
def to_bytes (body : List Nat) (limit : Nat) : Option (List Nat) :=
  if body.length ≤ limit then some body else none

/-- Outcome of the forwarder's body-reading step: whether the handler
rejects the request at this point, and which body (if any) is attached to
the outbound request that is then sent. -/
structure OutboundBody where
  rejected : Bool
  sentBody : Option (List Nat)

/-- Shallow embedding of `main.rs` lines 212–221: read the inbound body
with the 8 MiB cap, and attach it to the outbound request only on success
(`if let Ok(bytes) = maybe_body`).  On failure the error is discarded and
the outbound request is still sent, with no body attached. -/
def handlerBodyStep (inbound : List Nat) : OutboundBody :=
  match to_bytes inbound MAX_BODY_SIZE with
  | some bytes => { rejected := false, sentBody := some bytes }
  | none => { rejected := false, sentBody := none }

/-- Remove every value of a header name from a header multimap
(`HeaderMap::remove` removes all values of the name).  Header names are
modelled in their normalized lowercase form, which makes the `http` crate's
case-insensitive matching plain string equality. -/
def removeHeader (hs : List (String × String)) (name : String) :
    List (String × String) :=
  hs.filter fun p => p.1 ≠ name

/-- Model of `HeaderMap::insert`: drop all existing values of the name and
add the single new one. -/
def insertHeader (hs : List (String × String)) (name value : String) :
    List (String × String) :=
  removeHeader hs name ++ [(name, value)]

/-- All values a header multimap holds for a name. -/
def getHeaderValues (hs : List (String × String)) (name : String) :
    List String :=
  (hs.filter fun p => p.1 = name).map Prod.snd

/-- A forwarded HTTP response: status, header multimap, body bytes. -/
structure ForwardedResponse where
  status : Nat
  headers : List (String × String)
  body : List Nat

/-- Shallow embedding of `main.rs` lines 352–369 (the response path that
is compiled without the `debug_response` feature): copy the origin status
and headers, remove `Transfer-Encoding` and `Connection`, and insert a
`Content-Length` equal to the collected body's byte length. -/
def buildForwardedResponse (status : Nat) (originHeaders : List (String × String))
    (bodyBytes : List Nat) : ForwardedResponse :=
  let h1 := removeHeader (removeHeader originHeaders "transfer-encoding") "connection"
  let h2 := insertHeader h1 "content-length" (toString bodyBytes.length)
  { status := status, headers := h2, body := bodyBytes }

/-- Concrete test fixture: a parser accepting any body as JSON `null`. -/
def fixtureParse : List Nat → Option Json := fun _ => some Json.null

/-- Concrete test fixture: a parser rejecting every body. -/
def fixtureParseFail : List Nat → Option Json := fun _ => none

/-- Concrete test fixture: an HMAC primitive returning the single byte
`0xab`, whose lowercase hex encoding is `"ab"`. -/
def fixtureHmac : List Nat → List Nat → List Nat := fun _ _ => [171]

/-- Concrete test fixture: a header map carrying the signature header with
value bytes `"ab"`. -/
def fixtureHeaders : String → Option (List Nat) := fun name =>
  if name = "x-nowpayments-sig" then some [97, 98] else none

/-! ## Equation lemmas and basic facts about the embedded definitions -/

theorem sort_json_obj (kvs : List (String × Json)) :
    Json.sort_json (Json.obj kvs) =
      Json.obj ((Json.sortKeys (kvs.map Prod.fst)).map
        fun k => (k, Json.sort_json (Json.lookupJ k kvs))) := by
  rw [Json.sort_json]

theorem sort_json_arr (elems : List Json) :
    Json.sort_json (Json.arr elems) = Json.arr (elems.map Json.sort_json) := by
  rw [Json.sort_json]
  exact congrArg Json.arr (List.attach_map_val elems Json.sort_json)

theorem sort_json_null : Json.sort_json Json.null = Json.null := by
  simp [Json.sort_json]

theorem sort_json_bool (b : Bool) : Json.sort_json (Json.bool b) = Json.bool b := by
  simp [Json.sort_json]

theorem sort_json_num (lit : String) : Json.sort_json (Json.num lit) = Json.num lit := by
  simp [Json.sort_json]

theorem sort_json_str (s : String) : Json.sort_json (Json.str s) = Json.str s := by
  simp [Json.sort_json]

theorem sort_json_scalar {v : Json} (h : Json.isScalar v = true) :
    Json.sort_json v = v := by
  cases v with
  | null => exact sort_json_null
  | bool b => exact sort_json_bool b
  | num lit => exact sort_json_num lit
  | str s => exact sort_json_str s
  | arr elems => simp [Json.isScalar] at h
  | obj kvs => simp [Json.isScalar] at h

theorem sizeOf_lookupJ_le (k : String) (kvs : List (String × Json)) :
    sizeOf (Json.lookupJ k kvs) ≤ sizeOf kvs := by
  induction kvs with
  | nil => simp [Json.lookupJ]
  | cons p rest ih =>
    obtain ⟨k', v⟩ := p
    simp only [Json.lookupJ]
    split
    · simp
      omega
    · simp
      omega

theorem lookupJ_mem {k : String} {kvs : List (String × Json)}
    (h : k ∈ kvs.map Prod.fst) : (k, Json.lookupJ k kvs) ∈ kvs := by
  induction kvs with
  | nil => simp at h
  | cons p rest ih =>
    obtain ⟨k', v⟩ := p
    simp only [Json.lookupJ]
    by_cases hk : k = k'
    · subst hk
      simp
    · simp only [List.map_cons, List.mem_cons] at h
      rcases h with h | h
      · exact absurd h hk
      · simp only [if_neg hk, List.mem_cons]
        exact Or.inr (ih h)

theorem lookupJ_eq_of_nodup {kvs : List (String × Json)} {k : String} {v : Json}
    (hnd : (kvs.map Prod.fst).Nodup) (hmem : (k, v) ∈ kvs) :
    Json.lookupJ k kvs = v := by
  induction kvs with
  | nil => simp at hmem
  | cons p rest ih =>
    obtain ⟨k', v'⟩ := p
    simp only [List.map_cons, List.nodup_cons] at hnd
    simp only [List.mem_cons] at hmem
    simp only [Json.lookupJ]
    rcases hmem with h | h
    · obtain ⟨rfl, rfl⟩ := Prod.mk.injEq .. ▸ h
      simp
    · have hk : k ≠ k' := by
        intro hkk
        subst hkk
        exact hnd.1 (List.mem_map.mpr ⟨(k, v), h, rfl⟩)
      simp only [if_neg hk]
      exact ih hnd.2 h

theorem lookupJ_map_self (k : String) (ks : List String) (f : String → Json) :
    Json.lookupJ k (ks.map fun k' => (k', f k')) =
      if k ∈ ks then f k else Json.null := by
  induction ks with
  | nil => simp [Json.lookupJ]
  | cons a t ih =>
    simp only [List.map_cons, Json.lookupJ]
    by_cases h : k = a
    · subst h
      simp
    · simp [h, ih]

theorem sortKeys_perm (ks : List String) : (Json.sortKeys ks).Perm ks :=
  List.perm_insertionSort _ ks

theorem sortKeys_sorted (ks : List String) :
    (Json.sortKeys ks).Sorted (fun a b : String => a ≤ b) :=
  List.sorted_insertionSort _ ks

theorem sortKeys_of_sorted {ks : List String}
    (h : ks.Sorted (fun a b : String => a ≤ b)) : Json.sortKeys ks = ks :=
  List.Sorted.insertionSort_eq h

theorem map_fst_map_pair (ks : List String) (f : String → Json) :
    ((ks.map fun k => (k, f k)).map Prod.fst) = ks := by
  simp [List.map_map, Function.comp_def]

theorem nodupKeys_iff (ks : List String) : Json.nodupKeys ks = true ↔ ks.Nodup := by
  induction ks with
  | nil => simp [Json.nodupKeys]
  | cons k t ih =>
    simp [Json.nodupKeys, ih, List.nodup_cons]

theorem wfEntries_iff (kvs : List (String × Json)) :
    Json.wfEntries kvs = true ↔ ∀ p ∈ kvs, Json.wf p.2 = true := by
  induction kvs with
  | nil => simp [Json.wfEntries]
  | cons p rest ih =>
    obtain ⟨k, v⟩ := p
    simp [Json.wfEntries, ih]

theorem wfElems_iff (elems : List Json) :
    Json.wfElems elems = true ↔ ∀ x ∈ elems, Json.wf x = true := by
  induction elems with
  | nil => simp [Json.wfElems]
  | cons x rest ih =>
    simp [Json.wfElems, ih]

theorem wf_obj_iff (kvs : List (String × Json)) :
    Json.wf (Json.obj kvs) = true ↔
      (kvs.map Prod.fst).Nodup ∧ ∀ p ∈ kvs, Json.wf p.2 = true := by
  rw [Json.wf]
  simp [nodupKeys_iff, wfEntries_iff]

theorem wf_arr_iff (elems : List Json) :
    Json.wf (Json.arr elems) = true ↔ ∀ x ∈ elems, Json.wf x = true := by
  rw [Json.wf]
  exact wfElems_iff elems

theorem sizeOf_json_pos (v : Json) : 1 ≤ sizeOf v := by
  cases v <;> simp

theorem sort_json_sort_json_bounded :
    ∀ n : Nat, ∀ v : Json, sizeOf v ≤ n →
      Json.sort_json (Json.sort_json v) = Json.sort_json v := by
  intro n
  induction n with
  | zero =>
    intro v hv
    have := sizeOf_json_pos v
    omega
  | succ n ih =>
    intro v hv
    match v with
    | .null => simp [sort_json_null]
    | .bool b => simp [sort_json_bool]
    | .num lit => simp [sort_json_num]
    | .str s => simp [sort_json_str]
    | .arr elems =>
      rw [sort_json_arr, sort_json_arr, List.map_map]
      have hs : sizeOf (Json.arr elems) = 1 + sizeOf elems := by simp
      refine congrArg Json.arr (List.map_congr_left fun x hx => ?_)
      have hlt : sizeOf x < sizeOf elems := List.sizeOf_lt_of_mem hx
      exact ih x (by omega)
    | .obj kvs =>
      rw [sort_json_obj]
      rw [sort_json_obj]
      have hs : sizeOf (Json.obj kvs) = 1 + sizeOf kvs := by simp
      rw [map_fst_map_pair]
      rw [sortKeys_of_sorted (sortKeys_sorted (kvs.map Prod.fst))]
      refine congrArg Json.obj (List.map_congr_left fun k hk => ?_)
      rw [lookupJ_map_self, if_pos hk]
      have hle := sizeOf_lookupJ_le k kvs
      rw [ih (Json.lookupJ k kvs) (by omega)]

theorem canonical_sort_json_bounded :
    ∀ n : Nat, ∀ v : Json, sizeOf v ≤ n → Json.wf v = true →
      Canonical (Json.sort_json v) := by
  intro n
  induction n with
  | zero =>
    intro v hv _
    have := sizeOf_json_pos v
    omega
  | succ n ih =>
    intro v hv hwf
    match v with
    | .null =>
      rw [sort_json_null]
      exact Canonical.null
    | .bool b =>
      rw [sort_json_bool]
      exact Canonical.bool b
    | .num lit =>
      rw [sort_json_num]
      exact Canonical.num lit
    | .str s =>
      rw [sort_json_str]
      exact Canonical.str s
    | .arr elems =>
      rw [sort_json_arr]
      refine Canonical.arr _ fun x hx => ?_
      obtain ⟨y, hy, rfl⟩ := List.mem_map.mp hx
      have hs : sizeOf (Json.arr elems) = 1 + sizeOf elems := by simp
      have hlt : sizeOf y < sizeOf elems := List.sizeOf_lt_of_mem hy
      exact ih y (by omega) ((wf_arr_iff elems).mp hwf y hy)
    | .obj kvs =>
      rw [sort_json_obj]
      obtain ⟨hnd, hvals⟩ := (wf_obj_iff kvs).mp hwf
      have hs : sizeOf (Json.obj kvs) = 1 + sizeOf kvs := by simp
      refine Canonical.obj _ ?_ ?_
      · rw [map_fst_map_pair]
        have hperm := sortKeys_perm (kvs.map Prod.fst)
        exact List.Sorted.lt_of_le (sortKeys_sorted (kvs.map Prod.fst))
          (hperm.nodup_iff.mpr hnd)
      · intro p hp
        obtain ⟨k, hk, rfl⟩ := List.mem_map.mp hp
        have hkmem : k ∈ kvs.map Prod.fst := (sortKeys_perm _).mem_iff.mp hk
        have hmem := lookupJ_mem hkmem
        have hlt : sizeOf (k, Json.lookupJ k kvs) < sizeOf kvs :=
          List.sizeOf_lt_of_mem hmem
        have hsz : sizeOf (Json.lookupJ k kvs) < sizeOf kvs := by
          have : sizeOf (k, Json.lookupJ k kvs)
              = 1 + sizeOf k + sizeOf (Json.lookupJ k kvs) := by simp
          omega
        exact ih (Json.lookupJ k kvs) (by omega) (hvals _ hmem)

/-! ## Claim theorems -/

/-- C3: canonicalization is idempotent — for every JSON value `x`,
`sort_json (sort_json x) = sort_json x`. -/
theorem sort_json_idempotent (v : Json) :
    Json.sort_json (Json.sort_json v) = Json.sort_json v :=
  sort_json_sort_json_bounded (sizeOf v) v (Nat.le_refl _)

/-- C2: for every JSON value (satisfying the `serde_json::Map` invariant
of duplicate-free keys), `sort_json` returns a canonical value — at every
nesting level each object's keys are strictly ascending in the byte-wise
string order, with each value recursively canonicalized — and moreover an
array is mapped to the array of its recursively canonicalized elements in
the original order, and a scalar is returned unchanged. -/
theorem sort_json_canonicalizes (v : Json) (h : Json.wf v = true) :
    Canonical (Json.sort_json v) ∧
    (∀ elems, v = Json.arr elems →
      Json.sort_json v = Json.arr (elems.map Json.sort_json)) ∧
    (Json.isScalar v = true → Json.sort_json v = v) :=
  ⟨canonical_sort_json_bounded (sizeOf v) v (Nat.le_refl _) h,
   fun elems hv => hv ▸ sort_json_arr elems,
   fun hs => sort_json_scalar hs⟩

/-- Witness for C2 at the concrete value
`{"b": 2, "a": [null]}`. -/
theorem sort_json_canonicalizes_witness :
    Json.wf (Json.obj [("b", Json.num "2"), ("a", Json.arr [Json.null])]) = true ∧
    Canonical (Json.sort_json
      (Json.obj [("b", Json.num "2"), ("a", Json.arr [Json.null])])) :=
  ⟨by simp +decide [Json.wf, Json.wfEntries, Json.wfElems, Json.nodupKeys],
   (sort_json_canonicalizes _
      (by simp +decide [Json.wf, Json.wfEntries, Json.wfElems, Json.nodupKeys])).1⟩

/-- C10: canonicalization preserves content.  For an object (with the map
invariant of duplicate-free keys) the result is an object whose entry list
is a permutation of the original entries with each value canonicalized —
so the key set is exactly preserved, no entry is added, dropped or
duplicated, and each key maps to the canonicalization of its original
value; an array keeps its length and order (elementwise canonicalized);
a scalar is unchanged. -/
theorem sort_json_preserves_content (v : Json) (h : Json.wf v = true) :
    (∀ kvs, v = Json.obj kvs →
      ∃ kvs', Json.sort_json v = Json.obj kvs' ∧
        kvs'.Perm (kvs.map fun p => (p.1, Json.sort_json p.2))) ∧
    (∀ elems, v = Json.arr elems →
      Json.sort_json v = Json.arr (elems.map Json.sort_json)) ∧
    (Json.isScalar v = true → Json.sort_json v = v) := by
  refine ⟨?_, fun elems hv => hv ▸ sort_json_arr elems, fun hs => sort_json_scalar hs⟩
  intro kvs hv
  subst hv
  obtain ⟨hnd, _⟩ := (wf_obj_iff kvs).mp h
  refine ⟨_, sort_json_obj kvs, ?_⟩
  have h1 : ((Json.sortKeys (kvs.map Prod.fst)).map
      fun k => (k, Json.sort_json (Json.lookupJ k kvs))).Perm
      ((kvs.map Prod.fst).map fun k => (k, Json.sort_json (Json.lookupJ k kvs))) :=
    (sortKeys_perm _).map _
  refine h1.trans ?_
  rw [List.map_map]
  refine List.Perm.of_eq (List.map_congr_left fun p hp => ?_)
  obtain ⟨k0, v0⟩ := p
  simp only [Function.comp_apply]
  rw [lookupJ_eq_of_nodup hnd hp]

/-- Witness for C10 at the concrete value `{"b": 2, "a": [null]}`. -/
theorem sort_json_preserves_content_witness :
    Json.wf (Json.obj [("b", Json.num "2"), ("a", Json.arr [Json.null])]) = true ∧
    ∃ kvs', Json.sort_json
        (Json.obj [("b", Json.num "2"), ("a", Json.arr [Json.null])]) =
        Json.obj kvs' ∧
      kvs'.Perm ([("b", Json.num "2"), ("a", Json.arr [Json.null])].map
        fun p => (p.1, Json.sort_json p.2)) :=
  ⟨by simp +decide [Json.wf, Json.wfEntries, Json.wfElems, Json.nodupKeys],
   (sort_json_preserves_content _
      (by simp +decide [Json.wf, Json.wfEntries, Json.wfElems, Json.nodupKeys])).1
     _ rfl⟩

/-- C4: the invariant `successful_requests + failed_requests =
total_requests` holds for the freshly constructed metrics and is preserved
by every metrics operation: `record_request` adds one to `total_requests`
and to exactly one of `successful_requests` (iff `200 ≤ status < 400`) or
`failed_requests`, and `record_error` leaves all three counters
unchanged. -/
theorem metrics_success_fail_total_invariant :
    (RequestMetrics.default.successful_requests +
        RequestMetrics.default.failed_requests =
        RequestMetrics.default.total_requests) ∧
    (∀ (m : RequestMetrics) (path env : String) (status duration size : Nat),
      (m.record_request path env status duration size).total_requests =
          m.total_requests + 1 ∧
      ((200 ≤ status ∧ status < 400) →
        (m.record_request path env status duration size).successful_requests =
            m.successful_requests + 1 ∧
        (m.record_request path env status duration size).failed_requests =
            m.failed_requests) ∧
      (¬(200 ≤ status ∧ status < 400) →
        (m.record_request path env status duration size).successful_requests =
            m.successful_requests ∧
        (m.record_request path env status duration size).failed_requests =
            m.failed_requests + 1) ∧
      (m.successful_requests + m.failed_requests = m.total_requests →
        (m.record_request path env status duration size).successful_requests +
            (m.record_request path env status duration size).failed_requests =
            (m.record_request path env status duration size).total_requests)) ∧
    (∀ (m : RequestMetrics) (kind : String),
      (m.record_error kind).total_requests = m.total_requests ∧
      (m.record_error kind).successful_requests = m.successful_requests ∧
      (m.record_error kind).failed_requests = m.failed_requests) := by
  refine ⟨rfl, ?_, ?_⟩
  · intro m path env status duration size
    by_cases h : 200 ≤ status ∧ status < 400
    · simp [RequestMetrics.record_request, h]
      omega
    · simp [RequestMetrics.record_request, h]
      omega
  · intro m kind
    unfold RequestMetrics.record_error
    split
    · exact ⟨rfl, rfl, rfl⟩
    · split
      · exact ⟨rfl, rfl, rfl⟩
      · split
        · exact ⟨rfl, rfl, rfl⟩
        · exact ⟨rfl, rfl, rfl⟩

/-- Witness for C4: one `record_request` call with status 200 on the fresh
metrics preserves the invariant. -/
theorem metrics_success_fail_total_invariant_witness :
    (200 ≤ 200 ∧ 200 < 400) ∧
    (RequestMetrics.default.successful_requests +
        RequestMetrics.default.failed_requests =
        RequestMetrics.default.total_requests) ∧
    ((RequestMetrics.default.record_request "/a" "test" 200 5 7).successful_requests +
        (RequestMetrics.default.record_request "/a" "test" 200 5 7).failed_requests =
        (RequestMetrics.default.record_request "/a" "test" 200 5 7).total_requests) :=
  ⟨by decide, metrics_success_fail_total_invariant.1,
   (metrics_success_fail_total_invariant.2.1
      RequestMetrics.default "/a" "test" 200 5 7).2.2.2
     metrics_success_fail_total_invariant.1⟩

/-- C7: `record_request` replaces the slowest-request pair only when the
new duration is strictly greater than the stored one, so ties keep the
earlier record; on the concrete sequence 50ms/pathA, 120ms/pathB,
80ms/pathC, 120ms/pathD the tracked slowest request stays 120ms/pathB. -/
theorem record_request_slowest_strict_gt :
    (∀ (m : RequestMetrics) (path env : String) (status duration size : Nat),
      (m.record_request path env status duration size).slowest_request_time_ms =
          (if duration > m.slowest_request_time_ms then duration
           else m.slowest_request_time_ms) ∧
      (m.record_request path env status duration size).slowest_request_path =
          (if duration > m.slowest_request_time_ms then path
           else m.slowest_request_path)) ∧
    ((((RequestMetrics.default.record_request "pathA" "test" 200 50 0
          ).record_request "pathB" "test" 200 120 0
          ).record_request "pathC" "test" 200 80 0
          ).record_request "pathD" "test" 200 120 0).slowest_request_time_ms = 120 ∧
    ((((RequestMetrics.default.record_request "pathA" "test" 200 50 0
          ).record_request "pathB" "test" 200 120 0
          ).record_request "pathC" "test" 200 80 0
          ).record_request "pathD" "test" 200 120 0).slowest_request_path = "pathB" := by
  refine ⟨fun m path env status duration size => ⟨rfl, rfl⟩, ?_, ?_⟩
  · rfl
  · rfl

/-- C1: for an allow-listed source IP with a present, text-decodable
signature header and a JSON-parseable body, the webhook verifier accepts
(status 200, a success status) iff the header value equals the lowercase
hex encoding of the HMAC-SHA512, keyed by the configured secret, of the
compact serialization of the canonicalized body; on inequality it rejects
with status 400 (a client-error status). -/
theorem webhook_accepts_iff_signature_matches
    (parse : List Nat → Option Json) (hmacSha512 : List Nat → List Nat → List Nat)
    (ipn_secret client_ip : String)
    (headers : String → Option (List Nat)) (body : List Nat)
    (payload : Json) (sigBytes : List Nat) (signature : String)
    (hip : client_ip ∈ NOWPAYMENTS_ALLOWED_IPS)
    (hsig : headers "x-nowpayments-sig" = some sigBytes)
    (hdec : headerValueToStr sigBytes = some signature)
    (hparse : parse body = some payload) :
    (nowpayments_webhook parse hmacSha512 ipn_secret client_ip headers body =
        (200, "OK") ↔
      signature = hexEncode (hmacSha512 (utf8Bytes ipn_secret)
        (utf8Bytes (jsonToString (Json.sort_json payload))))) ∧
    (signature ≠ hexEncode (hmacSha512 (utf8Bytes ipn_secret)
        (utf8Bytes (jsonToString (Json.sort_json payload)))) →
      nowpayments_webhook parse hmacSha512 ipn_secret client_ip headers body =
        (400, "Invalid signature")) := by
  have hallow : (NOWPAYMENTS_ALLOWED_IPS.any fun ip => client_ip == ip) = true := by
    rw [List.any_eq_true]
    exact ⟨client_ip, hip, by simp⟩
  simp only [nowpayments_webhook, hallow, hsig, hdec, hparse, Bool.not_true,
    Bool.false_eq_true, if_false]
  by_cases hc :
      hexEncode (hmacSha512 (utf8Bytes ipn_secret)
        (utf8Bytes (jsonToString (Json.sort_json payload)))) = signature
  · simp [hc]
  · have hcs : signature ≠ hexEncode (hmacSha512 (utf8Bytes ipn_secret)
        (utf8Bytes (jsonToString (Json.sort_json payload)))) :=
      fun h => hc h.symm
    simp [hc, hcs, beq_iff_eq, Prod.mk.injEq]

/-- Witness for C1: concrete parser, HMAC, secret, allow-listed IP and
header, discharging every hypothesis of the theorem. -/
theorem webhook_accepts_iff_signature_matches_witness :
    "51.89.194.21" ∈ NOWPAYMENTS_ALLOWED_IPS ∧
    fixtureHeaders "x-nowpayments-sig" = some [97, 98] ∧
    headerValueToStr [97, 98] = some "ab" ∧
    fixtureParse [] = some Json.null ∧
    (nowpayments_webhook fixtureParse fixtureHmac "S" "51.89.194.21"
        fixtureHeaders [] = (200, "OK") ↔
      "ab" = hexEncode (fixtureHmac (utf8Bytes "S")
        (utf8Bytes (jsonToString (Json.sort_json Json.null))))) :=
  ⟨by decide, by decide, by decide, rfl,
   (webhook_accepts_iff_signature_matches fixtureParse fixtureHmac "S"
      "51.89.194.21" fixtureHeaders [] Json.null [97, 98] "ab"
      (by decide) (by decide) (by decide) rfl).1⟩

/-- C5: a webhook request whose source address is not in the fixed
allow-list is answered with status 403 (forbidden), whatever the parser,
the HMAC, the secret, the headers and the body are — in particular the
result does not depend on the body being parseable. -/
theorem webhook_forbidden_for_unlisted_ip
    (parse : List Nat → Option Json) (hmacSha512 : List Nat → List Nat → List Nat)
    (ipn_secret client_ip : String)
    (headers : String → Option (List Nat)) (body : List Nat)
    (hip : client_ip ∉ NOWPAYMENTS_ALLOWED_IPS) :
    nowpayments_webhook parse hmacSha512 ipn_secret client_ip headers body =
      (403, "Forbidden") := by
  have hallow : (NOWPAYMENTS_ALLOWED_IPS.any fun ip => client_ip == ip) = false := by
    rw [Bool.eq_false_iff]
    intro h
    obtain ⟨ip, hmem, hbeq⟩ := List.any_eq_true.mp h
    exact hip (eq_of_beq hbeq ▸ hmem)
  unfold nowpayments_webhook
  rw [hallow]
  rfl

/-- Witness for C5 at the concrete non-listed source IP `8.8.8.8`. -/
theorem webhook_forbidden_for_unlisted_ip_witness :
    "8.8.8.8" ∉ NOWPAYMENTS_ALLOWED_IPS ∧
    nowpayments_webhook fixtureParse fixtureHmac "S" "8.8.8.8" fixtureHeaders
        [] = (403, "Forbidden") :=
  ⟨by decide,
   webhook_forbidden_for_unlisted_ip fixtureParse fixtureHmac "S" "8.8.8.8"
     fixtureHeaders [] (by decide)⟩

/-- C9: an allow-listed webhook request with a present, decodable
signature header whose body fails to parse as JSON is answered with
status 500, a server-error status. -/
theorem webhook_server_error_on_unparseable_body
    (parse : List Nat → Option Json) (hmacSha512 : List Nat → List Nat → List Nat)
    (ipn_secret client_ip : String)
    (headers : String → Option (List Nat)) (body : List Nat)
    (sigBytes : List Nat) (signature : String)
    (hip : client_ip ∈ NOWPAYMENTS_ALLOWED_IPS)
    (hsig : headers "x-nowpayments-sig" = some sigBytes)
    (hdec : headerValueToStr sigBytes = some signature)
    (hparse : parse body = none) :
    nowpayments_webhook parse hmacSha512 ipn_secret client_ip headers body =
      (500, "JSON parsing error") := by
  have hallow : (NOWPAYMENTS_ALLOWED_IPS.any fun ip => client_ip == ip) = true := by
    rw [List.any_eq_true]
    exact ⟨client_ip, hip, by simp⟩
  simp only [nowpayments_webhook, hallow, hsig, hdec, hparse, Bool.not_true,
    Bool.false_eq_true, if_false]

/-- Witness for C9: concrete failing parser with otherwise valid
allow-listed request data. -/
theorem webhook_server_error_on_unparseable_body_witness :
    "51.75.77.69" ∈ NOWPAYMENTS_ALLOWED_IPS ∧
    fixtureParseFail [1, 2] = none ∧
    nowpayments_webhook fixtureParseFail fixtureHmac "S" "51.75.77.69"
        fixtureHeaders [1, 2] = (500, "JSON parsing error") :=
  ⟨by decide, rfl,
   webhook_server_error_on_unparseable_body fixtureParseFail fixtureHmac "S"
     "51.75.77.69" fixtureHeaders [1, 2] [97, 98] "ab"
     (by decide) (by decide) (by decide) rfl⟩

theorem getHeaderValues_removeHeader_self (hs : List (String × String))
    (n : String) : getHeaderValues (removeHeader hs n) n = [] := by
  unfold getHeaderValues removeHeader
  induction hs with
  | nil => rfl
  | cons p t ih =>
    by_cases h : p.1 = n
    · simp [h, ih]
    · simp [h, ih]

theorem getHeaderValues_removeHeader_other :
    ∀ (hs : List (String × String)) {m n : String}, m ≠ n →
      getHeaderValues (removeHeader hs n) m = getHeaderValues hs m
  | [], _, _, _ => rfl
  | p :: t, m, n, hne => by
    have ih := getHeaderValues_removeHeader_other t hne
    by_cases h : p.1 = n
    · have hm : p.1 ≠ m := fun hc => hne (hc ▸ h)
      have e1 : removeHeader (p :: t) n = removeHeader t n := by
        unfold removeHeader
        simp [List.filter_cons, h]
      have e2 : getHeaderValues (p :: t) m = getHeaderValues t m := by
        unfold getHeaderValues
        simp [List.filter_cons, hm]
      rw [e1, e2, ih]
    · have e1 : removeHeader (p :: t) n = p :: removeHeader t n := by
        unfold removeHeader
        simp [List.filter_cons, h]
      rw [e1]
      by_cases hm : p.1 = m
      · have e2 : ∀ l, getHeaderValues (p :: l) m = p.2 :: getHeaderValues l m := by
          intro l
          unfold getHeaderValues
          simp [List.filter_cons, hm]
        rw [e2, e2, ih]
      · have e2 : ∀ l, getHeaderValues (p :: l) m = getHeaderValues l m := by
          intro l
          unfold getHeaderValues
          simp [List.filter_cons, hm]
        rw [e2, e2, ih]

theorem getHeaderValues_append (h1 h2 : List (String × String)) (n : String) :
    getHeaderValues (h1 ++ h2) n = getHeaderValues h1 n ++ getHeaderValues h2 n := by
  unfold getHeaderValues
  rw [List.filter_append, List.map_append]

/-- C8: the forwarded response keeps the origin status and body, carries a
`Content-Length` header whose single value is the forwarded body's byte
length, has no `Transfer-Encoding` and no `Connection` header, and every
other header name keeps exactly the origin's values. -/
theorem forwarded_response_rewrite (status : Nat)
    (originHeaders : List (String × String)) (bodyBytes : List Nat) :
    (buildForwardedResponse status originHeaders bodyBytes).status = status ∧
    (buildForwardedResponse status originHeaders bodyBytes).body = bodyBytes ∧
    getHeaderValues (buildForwardedResponse status originHeaders bodyBytes).headers
        "content-length" = [toString bodyBytes.length] ∧
    getHeaderValues (buildForwardedResponse status originHeaders bodyBytes).headers
        "transfer-encoding" = [] ∧
    getHeaderValues (buildForwardedResponse status originHeaders bodyBytes).headers
        "connection" = [] ∧
    (∀ name, name ≠ "transfer-encoding" → name ≠ "connection" →
      name ≠ "content-length" →
      getHeaderValues (buildForwardedResponse status originHeaders bodyBytes).headers
          name = getHeaderValues originHeaders name) := by
  refine ⟨rfl, rfl, ?_, ?_, ?_, ?_⟩
  · unfold buildForwardedResponse insertHeader
    rw [getHeaderValues_append, getHeaderValues_removeHeader_self]
    rfl
  · unfold buildForwardedResponse insertHeader
    rw [getHeaderValues_append,
      getHeaderValues_removeHeader_other _ (by decide),
      getHeaderValues_removeHeader_other _ (by decide),
      getHeaderValues_removeHeader_self]
    rfl
  · unfold buildForwardedResponse insertHeader
    rw [getHeaderValues_append,
      getHeaderValues_removeHeader_other _ (by decide),
      getHeaderValues_removeHeader_self]
    rfl
  · intro name hte hconn hcl
    unfold buildForwardedResponse insertHeader
    rw [getHeaderValues_append,
      getHeaderValues_removeHeader_other _ hcl,
      getHeaderValues_removeHeader_other _ hconn,
      getHeaderValues_removeHeader_other _ hte]
    have hempty : getHeaderValues [("content-length", toString bodyBytes.length)]
        name = [] := by
      unfold getHeaderValues
      simp [Ne.symm hcl]
    rw [hempty, List.append_nil]

/-- Witness for C8 at a concrete origin response carrying hop-by-hop
headers and a custom header. -/
theorem forwarded_response_rewrite_witness :
    ("x-custom" ≠ "transfer-encoding" ∧ "x-custom" ≠ "connection" ∧
      "x-custom" ≠ "content-length") ∧
    getHeaderValues (buildForwardedResponse 200
        [("transfer-encoding", "chunked"), ("x-custom", "v"), ("connection", "close")]
        [7, 8, 9]).headers "x-custom" =
      getHeaderValues
        [("transfer-encoding", "chunked"), ("x-custom", "v"), ("connection", "close")]
        "x-custom" :=
  ⟨by decide,
   (forwarded_response_rewrite 200
      [("transfer-encoding", "chunked"), ("x-custom", "v"), ("connection", "close")]
      [7, 8, 9]).2.2.2.2.2 "x-custom" (by decide) (by decide) (by decide)⟩

/-- C6 probes: at an inbound body one byte over the 8 MiB cap, the
forwarder's body step does not reject the request — it sends the outbound
request with no body attached, i.e. with a body different from the inbound
one — while a body within the cap is forwarded unchanged.  This records
the divergence between the code (`if let Ok(bytes) = maybe_body` silently
discards the over-limit error) and the claim that an over-cap body is
rejected and never forwarded altered. -/
theorem handler_forwards_overlong_body_instead_of_rejecting :
    (handlerBodyStep (List.replicate (MAX_BODY_SIZE + 1) 0)).rejected = false ∧
    (handlerBodyStep (List.replicate (MAX_BODY_SIZE + 1) 0)).sentBody = none ∧
    (handlerBodyStep (List.replicate (MAX_BODY_SIZE + 1) 0)).sentBody ≠
      some (List.replicate (MAX_BODY_SIZE + 1) 0) ∧
    handlerBodyStep [1, 2, 3] =
      { rejected := false, sentBody := some [1, 2, 3] } := by
  have hto : to_bytes (List.replicate (MAX_BODY_SIZE + 1) 0) MAX_BODY_SIZE = none := by
    unfold to_bytes
    rw [List.length_replicate, if_neg (by omega)]
  have hto3 : to_bytes [1, 2, 3] MAX_BODY_SIZE = some [1, 2, 3] := by
    unfold to_bytes
    rw [if_pos (by simp [MAX_BODY_SIZE])]
  refine ⟨?_, ?_, ?_, ?_⟩
  · rw [handlerBodyStep, hto]
  · rw [handlerBodyStep, hto]
  · rw [handlerBodyStep, hto]
    intro hcon
    exact Option.noConfusion hcon
  · rw [handlerBodyStep, hto3]
